import Mathlib

/-!
Shallow embedding of the `tower-steer` crate's `Steer` combinator
(`src/tower-steer/src/lib.rs`) and of the `tower` timeout response future
(`src/tower/src/timeout/future.rs`).

Modelling choices:
* A handler's (`Service`'s) `poll_ready` outcome for one round is an oracle
  value of type `HPoll ε`: `ready`, `pending`, or `failed e`.  Within a single
  `Steer::poll_ready` call each handler is polled at most once, so supplying
  one outcome per handler is faithful.
* `steerPollReady` is the body of `Steer::poll_ready`: it walks the zipped
  (services, ready-flags) lists in index order, skipping flags that are
  already `true`, setting a flag on `Ready(Ok)`, returning `Pending` on the
  first pending handler (the `ready!` macro) and `Ready(Err e)` on the first
  failing handler (the `?` operator).  Besides the updated flag vector and
  the returned `Poll` value it also records, as ghost data, the indices of
  the handlers that were actually polled.
* `Steer.call` is `Steer::call`: the router picks an index from the request
  and the full handler slice; indexing `self.ready[idx]` / `self.cls[idx]`
  out of range is the `panicIndex` outcome, the `assert!(*ready)` failure is
  the `panicAssert` outcome, and on success the flag at `idx` is reset and
  the chosen handler's future (`callFn handler req`) is returned.
* `responseFuturePoll` is `ResponseFuture::poll`: the inner response future
  is polled first; only when it is pending is the sleep timer polled.
-/

namespace Tower

/-- Outcome of polling one handler's `poll_ready` in the current round:
`Poll::Ready(Ok(()))`, `Poll::Pending`, or `Poll::Ready(Err(e))`. -/
inductive HPoll (ε : Type) where
  | ready
  | pending
  | failed (e : ε)
deriving DecidableEq, Repr

/-- Value returned by `Steer::poll_ready`:
`Poll::Ready(Ok(()))`, `Poll::Pending`, or `Poll::Ready(Err(e))`. -/
inductive PollReady (ε : Type) where
  | ok
  | pending
  | err (e : ε)
deriving DecidableEq, Repr

/-- Result of one `Steer::poll_ready` call: the updated readiness vector,
the returned poll value, and (ghost data) the indices of the handlers that
were polled during the call. -/
structure PollOutcome (ε : Type) where
  flags : List Bool
  result : PollReady ε
  polled : List Nat
deriving DecidableEq, Repr

/-- Body of `Steer::poll_ready` (src/tower-steer/src/lib.rs:128-142).
`polls` gives, index-aligned with the services, the outcome each service's
`poll_ready` would report this round; `flags` is `self.ready`.  The loop
iterates `self.cls.iter_mut().zip(self.ready.iter_mut())`: a `true` flag is
skipped; otherwise the service is polled, `ready!` propagates `Pending`,
`?` propagates an error, and on success the flag is set to `true`. -/
def steerPollReady {ε : Type} : List (HPoll ε) → List Bool → PollOutcome ε
  | p :: ps, f :: fs =>
    if f then
      let o := steerPollReady ps fs
      ⟨f :: o.flags, o.result, o.polled.map (· + 1)⟩
    else
      match p with
      | .ready =>
        let o := steerPollReady ps fs
        ⟨true :: o.flags, o.result, 0 :: o.polled.map (· + 1)⟩
      | .pending => ⟨f :: fs, .pending, [0]⟩
      | .failed e => ⟨f :: fs, .err e, [0]⟩
  | _, fs => ⟨fs, .ok, []⟩

/-- The `Steer` combinator's state: the routing policy (`Picker`), the
ordered service list `cls`, and the parallel readiness vector `ready`
(src/tower-steer/src/lib.rs:90-96). -/
structure Steer (H ρ : Type) where
  router : ρ → List H → Nat
  cls : List H
  ready : List Bool

/-- Constructor `Steer::new` (src/tower-steer/src/lib.rs:106-115): collect the services,
build the readiness vector with `cls.iter().map(|_| false)`. -/
def Steer.new {H ρ : Type} (cls : List H) (router : ρ → List H → Nat) : Steer H ρ :=
  { router := router, cls := cls, ready := cls.map (fun _ => false) }

/-- Result of one `Steer::call`: either success, carrying the chosen index,
the (unchanged) service list, the updated readiness vector and the returned
future; or a panic from out-of-range indexing (`self.ready[idx]` /
`self.cls[idx]`); or a panic from `assert!(*ready)`. -/
inductive CallOutcome (H φ : Type) where
  | ok (idx : Nat) (cls : List H) (flags : List Bool) (fut : φ)
  | panicIndex (idx : Nat)
  | panicAssert (idx : Nat)

/-- Method `Steer::call` (src/tower-steer/src/lib.rs:144-152).  `callFn h req`
models the chosen service's `call` returning its future (boxed by the
source only to erase its type).  The index is computed by the router from
the request and the full slice `&self.cls[..]`; then `self.ready[idx]` and
`self.cls[idx]` are taken (panicking when out of range), `assert!(*ready)`
panics when the flag is `false`, and otherwise the future is produced and
the flag reset to `false`. -/
def Steer.call {H ρ φ : Type} (s : Steer H ρ) (callFn : H → ρ → φ) (req : ρ) :
    CallOutcome H φ :=
  let idx := s.router req s.cls
  if h1 : idx < s.ready.length then
    if h2 : idx < s.cls.length then
      if s.ready.get ⟨idx, h1⟩ then
        CallOutcome.ok idx s.cls (s.ready.set idx false)
          (callFn (s.cls.get ⟨idx, h2⟩) req)
      else CallOutcome.panicAssert idx
    else CallOutcome.panicIndex idx
  else CallOutcome.panicIndex idx

/-- One poll of a future: `Poll::Ready(v)` or `Poll::Pending`. -/
inductive FPoll (α : Type) where
  | ready (v : α)
  | pending
deriving DecidableEq, Repr

/-- The timeout wrapper's error type: either the inner operation's error
translated by `Into::into`, or the distinguished `Elapsed` error. -/
inductive TimeoutError (ε : Type) where
  | inner (e : ε)
  | elapsed
deriving DecidableEq, Repr

/-- Method `ResponseFuture::poll` (src/tower/src/timeout/future.rs:35-49).
`response` is what polling the inner future reports this round, `sleep`
what polling the timer reports.  The response is polled first: if ready,
its result is returned with errors translated (`v.map_err(Into::into)`);
only when it is pending is the sleep polled, a fired timer yielding
`Err(Elapsed(()).into())` and otherwise `Pending`. -/
def responseFuturePoll {ε τ : Type} (response : FPoll (Except ε τ))
    (sleep : FPoll Unit) : FPoll (Except (TimeoutError ε) τ) :=
  match response with
  | .ready v =>
    .ready (match v with
      | .ok t => .ok t
      | .error e => .error (.inner e))
  | .pending =>
    match sleep with
    | .pending => .pending
    | .ready _ => .ready (.error .elapsed)

/-! ### Helper lemmas about `steerPollReady` -/

theorem steerPollReady_nil_polls {ε : Type} (fs : List Bool) :
    steerPollReady ([] : List (HPoll ε)) fs = ⟨fs, .ok, []⟩ := by
  cases fs <;> rfl

theorem steerPollReady_nil_flags {ε : Type} (ps : List (HPoll ε)) :
    steerPollReady ps [] = ⟨[], .ok, []⟩ := by
  cases ps <;> rfl

theorem steerPollReady_cons_true {ε : Type} (p : HPoll ε) (ps : List (HPoll ε))
    (fs : List Bool) :
    steerPollReady (p :: ps) (true :: fs) =
      ⟨true :: (steerPollReady ps fs).flags, (steerPollReady ps fs).result,
        (steerPollReady ps fs).polled.map (· + 1)⟩ := rfl

theorem steerPollReady_cons_ready {ε : Type} (ps : List (HPoll ε)) (fs : List Bool) :
    steerPollReady (HPoll.ready :: ps) (false :: fs) =
      ⟨true :: (steerPollReady ps fs).flags, (steerPollReady ps fs).result,
        0 :: (steerPollReady ps fs).polled.map (· + 1)⟩ := rfl

theorem steerPollReady_cons_pending {ε : Type} (ps : List (HPoll ε)) (fs : List Bool) :
    steerPollReady (HPoll.pending :: ps) (false :: fs) =
      ⟨false :: fs, .pending, [0]⟩ := rfl

theorem steerPollReady_cons_failed {ε : Type} (e : ε) (ps : List (HPoll ε))
    (fs : List Bool) :
    steerPollReady (HPoll.failed e :: ps) (false :: fs) =
      ⟨false :: fs, .err e, [0]⟩ := rfl

/-- The combinator returns `Ready(Ok(()))` exactly when every readiness flag ends
up `true` (the loop either sets each flag or returns early). -/
theorem steerPollReady_ok_iff {ε : Type} (ps : List (HPoll ε)) (fs : List Bool)
    (hlen : ps.length = fs.length) :
    ((steerPollReady ps fs).result = PollReady.ok ↔
      ∀ b ∈ (steerPollReady ps fs).flags, b = true) := by
  induction ps generalizing fs with
  | nil =>
    have hfs : fs = [] := by
      cases fs with
      | nil => rfl
      | cons f fs => simp at hlen
    subst hfs
    simp [steerPollReady_nil_polls]
  | cons p ps ih =>
    cases fs with
    | nil => simp at hlen
    | cons f fs =>
      have hlen2 : ps.length = fs.length := by simpa using hlen
      cases f with
      | true =>
        rw [steerPollReady_cons_true]
        simpa using ih fs hlen2
      | false =>
        cases p with
        | ready =>
          rw [steerPollReady_cons_ready]
          simpa using ih fs hlen2
        | pending =>
          rw [steerPollReady_cons_pending]
          simp
        | failed e =>
          rw [steerPollReady_cons_failed]
          simp

/-- If the loop reaches a not-yet-ready handler (every earlier handler is
flagged ready or polls ready) and that handler polls `Pending`, the whole
`poll_ready` returns `Pending`. -/
theorem steerPollReady_pending_of {ε : Type} (ps : List (HPoll ε)) (fs : List Bool)
    (i : Nat) (hflag : fs.getD i true = false)
    (hpoll : ps.getD i HPoll.ready = HPoll.pending)
    (hreach : ∀ j, j < i → fs.getD j false = true ∨ ps.getD j HPoll.pending = HPoll.ready) :
    (steerPollReady ps fs).result = PollReady.pending := by
  induction ps generalizing fs i with
  | nil => simp at hpoll
  | cons p ps ih =>
    cases fs with
    | nil =>
      cases i with
      | zero => simp at hflag
      | succ i => simp at hflag
    | cons f fs =>
      cases i with
      | zero =>
        simp only [List.getD_cons_zero] at hflag hpoll
        subst hflag
        subst hpoll
        rw [steerPollReady_cons_pending]
      | succ i =>
        simp only [List.getD_cons_succ] at hflag hpoll
        have hreach2 : ∀ j, j < i →
            fs.getD j false = true ∨ ps.getD j HPoll.pending = HPoll.ready := by
          intro j hj
          simpa using hreach (j + 1) (by omega)
        rcases hreach 0 (by omega) with h0 | h0 <;>
          simp only [List.getD_cons_zero] at h0
        · subst h0
          rw [steerPollReady_cons_true]
          exact ih fs i hflag hpoll hreach2
        · subst h0
          cases hf : f with
          | true =>
            rw [steerPollReady_cons_true]
            exact ih fs i hflag hpoll hreach2
          | false =>
            rw [steerPollReady_cons_ready]
            exact ih fs i hflag hpoll hreach2

/-- C1: for every handler set of size N ≥ 1 and every readiness-vector state,
`Steer::poll_ready` returns `Ready(Ok)` iff after the poll every handler's
readiness flag is `true`; and if a not-yet-ready handler that the loop
reaches reports `Pending`, `poll_ready` returns `Pending`. -/
theorem steer_pollReady_ready_iff_all {ε : Type} (ps : List (HPoll ε))
    (fs : List Bool) (_hn : 1 ≤ ps.length) (hlen : ps.length = fs.length) :
    ((steerPollReady ps fs).result = PollReady.ok ↔
      ∀ b ∈ (steerPollReady ps fs).flags, b = true) ∧
    (∀ i, fs.getD i true = false → ps.getD i HPoll.ready = HPoll.pending →
      (∀ j, j < i → fs.getD j false = true ∨ ps.getD j HPoll.pending = HPoll.ready) →
      (steerPollReady ps fs).result = PollReady.pending) :=
  ⟨steerPollReady_ok_iff ps fs hlen,
    fun i h1 h2 h3 => steerPollReady_pending_of ps fs i h1 h2 h3⟩

/-- Witness for C1 at a concrete input: two handlers, the first polls ready
and the second pending, so `poll_ready` returns `Pending`. -/
theorem steer_pollReady_ready_iff_all_witness :
    (steerPollReady ([HPoll.ready, HPoll.pending] : List (HPoll Nat))
      [false, false]).result = PollReady.pending :=
  (steer_pollReady_ready_iff_all [HPoll.ready, HPoll.pending] [false, false]
      (by decide) (by decide)).2 1 (by decide) (by decide)
    (fun j hj => by
      cases j with
      | zero => exact Or.inr rfl
      | succ j => omega)

/-- Every handler index recorded as polled had its readiness flag `false`
before the call: already-ready handlers are never re-polled. -/
theorem steerPollReady_polled_flag_false {ε : Type} (ps : List (HPoll ε))
    (fs : List Bool) :
    ∀ i ∈ (steerPollReady ps fs).polled, fs.getD i true = false := by
  induction ps generalizing fs with
  | nil =>
    rw [steerPollReady_nil_polls]
    simp
  | cons p ps ih =>
    cases fs with
    | nil =>
      rw [steerPollReady_nil_flags]
      simp
    | cons f fs =>
      cases f with
      | true =>
        rw [steerPollReady_cons_true]
        intro i hi
        simp only [List.mem_map] at hi
        obtain ⟨j, hj, rfl⟩ := hi
        simpa using ih fs j hj
      | false =>
        cases p with
        | ready =>
          rw [steerPollReady_cons_ready]
          intro i hi
          rcases List.mem_cons.mp hi with rfl | hi
          · simp
          · simp only [List.mem_map] at hi
            obtain ⟨j, hj, rfl⟩ := hi
            simpa using ih fs j hj
        | pending =>
          rw [steerPollReady_cons_pending]
          intro i hi
          simp only [List.mem_singleton] at hi
          subst hi
          simp
        | failed e =>
          rw [steerPollReady_cons_failed]
          intro i hi
          simp only [List.mem_singleton] at hi
          subst hi
          simp

/-- The polled indices are recorded in strictly increasing (index) order. -/
theorem steerPollReady_polled_sorted {ε : Type} (ps : List (HPoll ε))
    (fs : List Bool) :
    (steerPollReady ps fs).polled.Pairwise (· < ·) := by
  induction ps generalizing fs with
  | nil =>
    rw [steerPollReady_nil_polls]
    simp
  | cons p ps ih =>
    cases fs with
    | nil =>
      rw [steerPollReady_nil_flags]
      simp
    | cons f fs =>
      cases f with
      | true =>
        rw [steerPollReady_cons_true]
        simp only [PollOutcome.mk.injEq]
        exact (List.pairwise_map.mpr ((ih fs).imp (by omega)))
      | false =>
        cases p with
        | ready =>
          rw [steerPollReady_cons_ready]
          refine List.Pairwise.cons ?_ (List.pairwise_map.mpr ((ih fs).imp (by omega)))
          intro x hx
          simp only [List.mem_map] at hx
          obtain ⟨j, _, rfl⟩ := hx
          omega
        | pending =>
          rw [steerPollReady_cons_pending]
          simp
        | failed e =>
          rw [steerPollReady_cons_failed]
          simp

/-- A flag that is `true` before `poll_ready` is still `true` afterwards:
`poll_ready` never clears a readiness flag. -/
theorem steerPollReady_flag_mono {ε : Type} (ps : List (HPoll ε)) (fs : List Bool)
    (i : Nat) (h : fs.getD i false = true) :
    (steerPollReady ps fs).flags.getD i false = true := by
  induction ps generalizing fs i with
  | nil => rw [steerPollReady_nil_polls]; exact h
  | cons p ps ih =>
    cases fs with
    | nil =>
      cases i with
      | zero => simp at h
      | succ i => simp at h
    | cons f fs =>
      cases i with
      | zero =>
        simp only [List.getD_cons_zero] at h
        subst h
        rw [steerPollReady_cons_true]
        simp
      | succ i =>
        simp only [List.getD_cons_succ] at h
        cases f with
        | true =>
          rw [steerPollReady_cons_true]
          simpa using ih fs i h
        | false =>
          cases p with
          | ready =>
            rw [steerPollReady_cons_ready]
            simpa using ih fs i h
          | pending =>
            rw [steerPollReady_cons_pending]
            simpa using h
          | failed e =>
            rw [steerPollReady_cons_failed]
            simpa using h

/-- Every handler the loop reaches (all earlier handlers flagged ready or
polling ready) whose flag is `false` is actually polled. -/
theorem steerPollReady_polled_complete {ε : Type} (ps : List (HPoll ε))
    (fs : List Bool) (i : Nat) (hflag : fs.getD i true = false)
    (hreach : ∀ j, j < i → fs.getD j false = true ∨ ps.getD j HPoll.pending = HPoll.ready)
    (hi : i < ps.length) :
    i ∈ (steerPollReady ps fs).polled := by
  induction ps generalizing fs i with
  | nil => simp at hi
  | cons p ps ih =>
    cases fs with
    | nil =>
      cases i with
      | zero => simp at hflag
      | succ i => simp at hflag
    | cons f fs =>
      cases i with
      | zero =>
        simp only [List.getD_cons_zero] at hflag
        subst hflag
        cases p with
        | ready => rw [steerPollReady_cons_ready]; simp
        | pending => rw [steerPollReady_cons_pending]; simp
        | failed e => rw [steerPollReady_cons_failed]; simp
      | succ i =>
        simp only [List.getD_cons_succ] at hflag
        have hreach2 : ∀ j, j < i →
            fs.getD j false = true ∨ ps.getD j HPoll.pending = HPoll.ready := by
          intro j hj
          simpa using hreach (j + 1) (by omega)
        have hi2 : i < ps.length := by simpa using hi
        have hmem := ih fs i hflag hreach2 hi2
        rcases hreach 0 (by omega) with h0 | h0 <;>
          simp only [List.getD_cons_zero] at h0
        · subst h0
          rw [steerPollReady_cons_true]
          simp only [List.mem_map]
          exact ⟨i, hmem, rfl⟩
        · subst h0
          cases hf : f with
          | true =>
            rw [steerPollReady_cons_true]
            simp only [List.mem_map]
            exact ⟨i, hmem, rfl⟩
          | false =>
            rw [steerPollReady_cons_ready]
            simp only [List.mem_cons, List.mem_map]
            exact Or.inr ⟨i, hmem, rfl⟩

/-- C2: within one `Steer::poll_ready` call, a handler whose readiness flag is
already `true` is never polled; the handlers that are polled are exactly the
`false`-flagged ones the loop reaches, in strictly increasing index order; and
a `true` flag is never cleared by `poll_ready`. -/
theorem steer_pollReady_skips_ready {ε : Type} (ps : List (HPoll ε))
    (fs : List Bool) :
    (∀ i ∈ (steerPollReady ps fs).polled, fs.getD i true = false) ∧
    (steerPollReady ps fs).polled.Pairwise (· < ·) ∧
    (∀ i, fs.getD i false = true →
      (steerPollReady ps fs).flags.getD i false = true) ∧
    (∀ i, fs.getD i true = false →
      (∀ j, j < i → fs.getD j false = true ∨ ps.getD j HPoll.pending = HPoll.ready) →
      i < ps.length → i ∈ (steerPollReady ps fs).polled) :=
  ⟨steerPollReady_polled_flag_false ps fs,
    steerPollReady_polled_sorted ps fs,
    fun i h => steerPollReady_flag_mono ps fs i h,
    fun i h1 h2 h3 => steerPollReady_polled_complete ps fs i h1 h2 h3⟩

/-- Witness for C2 at a concrete input: handler 0 is already flagged ready and
handler 1 is not, so handler 1 (reached because flag 0 is `true`) is polled. -/
theorem steer_pollReady_skips_ready_witness :
    1 ∈ (steerPollReady ([HPoll.ready, HPoll.ready] : List (HPoll Nat))
      [true, false]).polled :=
  (steer_pollReady_skips_ready [HPoll.ready, HPoll.ready] [true, false]).2.2.2
    1 (by decide)
    (fun j hj => by
      cases j with
      | zero => exact Or.inl rfl
      | succ j => omega)
    (by decide)

/-- If the loop reaches handler `i` (every earlier handler is flagged ready or
polls ready), its flag is `false`, and its poll fails with `e`, then
`poll_ready` returns `Ready(Err(e))`, no handler after `i` is polled, and
handler `i`'s flag stays `false`. -/
theorem steerPollReady_err_of {ε : Type} (ps : List (HPoll ε)) (fs : List Bool)
    (i : Nat) (e : ε) (hflag : fs.getD i true = false)
    (hpoll : ps.getD i HPoll.ready = HPoll.failed e)
    (hreach : ∀ j, j < i → fs.getD j false = true ∨ ps.getD j HPoll.pending = HPoll.ready) :
    (steerPollReady ps fs).result = PollReady.err e ∧
    (∀ j ∈ (steerPollReady ps fs).polled, j ≤ i) ∧
    (steerPollReady ps fs).flags.getD i false = false := by
  induction ps generalizing fs i with
  | nil => simp at hpoll
  | cons p ps ih =>
    cases fs with
    | nil =>
      cases i with
      | zero => simp at hflag
      | succ i => simp at hflag
    | cons f fs =>
      cases i with
      | zero =>
        simp only [List.getD_cons_zero] at hflag hpoll
        subst hflag
        subst hpoll
        rw [steerPollReady_cons_failed]
        refine ⟨rfl, ?_, rfl⟩
        intro j hj
        simp only [List.mem_singleton] at hj
        omega
      | succ i =>
        simp only [List.getD_cons_succ] at hflag hpoll
        have hreach2 : ∀ j, j < i →
            fs.getD j false = true ∨ ps.getD j HPoll.pending = HPoll.ready := by
          intro j hj
          simpa using hreach (j + 1) (by omega)
        obtain ⟨hr, hp, hf⟩ := ih fs i hflag hpoll hreach2
        have step : ∀ o : PollOutcome ε, o = steerPollReady ps fs →
            ((⟨true :: o.flags, o.result, 0 :: o.polled.map (· + 1)⟩ :
                PollOutcome ε).result = PollReady.err e ∧
              (∀ j ∈ (0 :: o.polled.map (· + 1)), j ≤ i + 1) ∧
              (true :: o.flags).getD (i + 1) false = false) := by
          intro o ho
          subst ho
          refine ⟨hr, ?_, by simpa using hf⟩
          intro j hj
          rcases List.mem_cons.mp hj with rfl | hj
          · omega
          · simp only [List.mem_map] at hj
            obtain ⟨k, hk, rfl⟩ := hj
            have := hp k hk
            omega
        rcases hreach 0 (by omega) with h0 | h0 <;>
          simp only [List.getD_cons_zero] at h0
        · subst h0
          rw [steerPollReady_cons_true]
          obtain ⟨a, b, c⟩ := step (steerPollReady ps fs) rfl
          refine ⟨a, ?_, c⟩
          intro j hj
          rcases List.mem_map.mp hj with ⟨k, hk, rfl⟩
          have := hp k hk
          omega
        · subst h0
          cases hf2 : f with
          | true =>
            rw [steerPollReady_cons_true]
            refine ⟨hr, ?_, by simpa using hf⟩
            intro j hj
            rcases List.mem_map.mp hj with ⟨k, hk, rfl⟩
            have := hp k hk
            omega
          | false =>
            rw [steerPollReady_cons_ready]
            exact step (steerPollReady ps fs) rfl

/-- C3: if handler `i` is reached by the `poll_ready` loop with flag `false`
and reports a failure `e` when polled, `poll_ready` returns `Ready(Err(e))`
with exactly that error, no handler with index greater than `i` is polled in
that call, and handler `i`'s readiness flag is not set to `true`. -/
theorem steer_pollReady_err_propagation {ε : Type} (ps : List (HPoll ε))
    (fs : List Bool) (i : Nat) (e : ε) (hflag : fs.getD i true = false)
    (hpoll : ps.getD i HPoll.ready = HPoll.failed e)
    (hreach : ∀ j, j < i → fs.getD j false = true ∨ ps.getD j HPoll.pending = HPoll.ready) :
    (steerPollReady ps fs).result = PollReady.err e ∧
    (∀ j ∈ (steerPollReady ps fs).polled, j ≤ i) ∧
    (steerPollReady ps fs).flags.getD i false = false :=
  steerPollReady_err_of ps fs i e hflag hpoll hreach

/-- Witness for C3 at a concrete input: handler 0 polls ready, handler 1
fails with error 7, so `poll_ready` returns `Ready(Err(7))`. -/
theorem steer_pollReady_err_propagation_witness :
    (steerPollReady ([HPoll.ready, HPoll.failed 7, HPoll.pending] : List (HPoll Nat))
      [false, false, false]).result = PollReady.err 7 :=
  (steer_pollReady_err_propagation [HPoll.ready, HPoll.failed 7, HPoll.pending]
      [false, false, false] 1 7 (by decide) (by decide)
      (fun j hj => by
        cases j with
        | zero => exact Or.inr rfl
        | succ j => omega)).1

/-! ### Helper lemmas about `Steer.call` -/

theorem getD_set_self (l : List Bool) (i : Nat) :
    (l.set i false).getD i false = false := by
  induction l generalizing i with
  | nil => simp [List.set]
  | cons a l ih =>
    cases i with
    | zero => simp [List.set]
    | succ i => simpa [List.set] using ih i

theorem getD_set_ne (l : List Bool) (i j : Nat) (a d : Bool) (h : j ≠ i) :
    (l.set i a).getD j d = l.getD j d := by
  induction l generalizing i j with
  | nil => simp [List.set]
  | cons b l ih =>
    cases i with
    | zero =>
      cases j with
      | zero => omega
      | succ j => simp [List.set]
    | succ i =>
      cases j with
      | zero => simp [List.set]
      | succ j => simpa [List.set] using ih i j (by omega)

theorem steer_call_ok {H ρ φ : Type} (s : Steer H ρ) (callFn : H → ρ → φ)
    (req : ρ) (h1 : s.router req s.cls < s.ready.length)
    (h2 : s.router req s.cls < s.cls.length)
    (hready : s.ready.get ⟨s.router req s.cls, h1⟩ = true) :
    s.call callFn req = CallOutcome.ok (s.router req s.cls) s.cls
      (s.ready.set (s.router req s.cls) false)
      (callFn (s.cls.get ⟨s.router req s.cls, h2⟩) req) := by
  simp only [Steer.call]
  rw [dif_pos h1, dif_pos h2, if_pos hready]

/-- C4: `Steer::call` computes the index by applying the router to the
request and the full handler list, invokes exactly the handler at that index
with the unmodified request, and returns that handler's result unchanged. -/
theorem steer_call_routes {H ρ φ : Type} (s : Steer H ρ) (callFn : H → ρ → φ)
    (req : ρ) (h1 : s.router req s.cls < s.ready.length)
    (h2 : s.router req s.cls < s.cls.length)
    (hready : s.ready.get ⟨s.router req s.cls, h1⟩ = true) :
    s.call callFn req = CallOutcome.ok (s.router req s.cls) s.cls
      (s.ready.set (s.router req s.cls) false)
      (callFn (s.cls.get ⟨s.router req s.cls, h2⟩) req) :=
  steer_call_ok s callFn req h1 h2 hready

/-- Witness for C4 at a concrete input: one ready handler, router picks 0,
`call` returns that handler's future `callFn 10 5 = 15`. -/
theorem steer_call_routes_witness :
    Steer.call (⟨fun _ _ => 0, [10], [true]⟩ : Steer Nat Nat) (fun h r => h + r) 5
      = CallOutcome.ok 0 [10] [false] 15 :=
  steer_call_routes (⟨fun _ _ => 0, [10], [true]⟩ : Steer Nat Nat)
    (fun h r => h + r) 5 (by decide) (by decide) (by decide)

/-- C5: whenever `Steer::call` succeeds, the handler list is unchanged, the
readiness flag at the chosen index is now `false`, every other readiness flag
is unchanged, and the readiness vector keeps its length. -/
theorem steer_call_frame {H ρ φ : Type} (s : Steer H ρ) (callFn : H → ρ → φ)
    (req : ρ) (idx : Nat) (cls2 : List H) (flags2 : List Bool) (fut : φ)
    (hok : s.call callFn req = CallOutcome.ok idx cls2 flags2 fut) :
    cls2 = s.cls ∧ idx = s.router req s.cls ∧
    flags2.getD idx false = false ∧
    (∀ j, j ≠ idx → flags2.getD j false = s.ready.getD j false) ∧
    flags2.length = s.ready.length := by
  simp only [Steer.call] at hok
  split at hok
  · split at hok
    · split at hok
      · simp only [CallOutcome.ok.injEq] at hok
        obtain ⟨hidx, hcls, hflags, _⟩ := hok
        subst hidx
        subst hcls
        subst hflags
        refine ⟨rfl, rfl, getD_set_self _ _, ?_, by simp⟩
        intro j hj
        exact getD_set_ne _ _ _ _ _ hj
      · exact CallOutcome.noConfusion hok
    · exact CallOutcome.noConfusion hok
  · exact CallOutcome.noConfusion hok

/-- Witness for C5 at a concrete input: two ready handlers, router picks 1,
after `call` the flag at index 1 is `false`. -/
theorem steer_call_frame_witness :
    ([true, false] : List Bool).getD 1 false = false :=
  (steer_call_frame (⟨fun _ _ => 1, [10, 20], [true, true]⟩ : Steer Nat Nat)
    (fun h r => h * 100 + r) 7 1 [10, 20] [true, false] 2007 rfl).2.2.1

/-- C6: when the readiness flag at the (in-range) policy-chosen index is
`false`, `Steer::call` hits `assert!(*ready)` and panics — it is exactly the
`panicAssert` outcome, never a recoverable value; and when the flag is `true`
the fatal branches are unreachable. -/
theorem steer_call_assert_fatal {H ρ φ : Type} (s : Steer H ρ)
    (callFn : H → ρ → φ) (req : ρ)
    (h1 : s.router req s.cls < s.ready.length)
    (h2 : s.router req s.cls < s.cls.length) :
    (s.ready.get ⟨s.router req s.cls, h1⟩ = false →
      s.call callFn req = CallOutcome.panicAssert (s.router req s.cls)) ∧
    (s.ready.get ⟨s.router req s.cls, h1⟩ = true →
      ∀ o, s.call callFn req ≠ CallOutcome.panicAssert o ∧
        s.call callFn req ≠ CallOutcome.panicIndex o) := by
  constructor
  · intro hf
    simp only [Steer.call]
    rw [dif_pos h1, dif_pos h2,
      if_neg (by simp only [List.get_eq_getElem] at hf; simp [hf])]
  · intro ht o
    rw [steer_call_ok s callFn req h1 h2 ht]
    exact ⟨fun h => CallOutcome.noConfusion h, fun h => CallOutcome.noConfusion h⟩

/-- Witness for C6 at a concrete input: the single handler's flag is `false`,
so `call` panics on the assertion. -/
theorem steer_call_assert_fatal_witness :
    Steer.call (⟨fun _ _ => 0, [10], [false]⟩ : Steer Nat Nat) (fun h r => h + r) 5
      = CallOutcome.panicAssert 0 :=
  (steer_call_assert_fatal (⟨fun _ _ => 0, [10], [false]⟩ : Steer Nat Nat)
    (fun h r => h + r) 5 (by decide) (by decide)).1 (by decide)

/-- C7: if the router returns an index at or beyond the number of handlers,
`Steer::call` is exactly the out-of-bounds indexing panic — it never clamps,
wraps, or invokes any handler. -/
theorem steer_call_index_fatal {H ρ φ : Type} (s : Steer H ρ)
    (callFn : H → ρ → φ) (req : ρ) (hlen : s.ready.length = s.cls.length)
    (hout : s.cls.length ≤ s.router req s.cls) :
    s.call callFn req = CallOutcome.panicIndex (s.router req s.cls) := by
  simp only [Steer.call]
  rw [dif_neg (by omega)]

/-- Witness for C7 at a concrete input: one handler, router returns 5, so
`call` panics with the out-of-range index 5. -/
theorem steer_call_index_fatal_witness :
    Steer.call (⟨fun _ _ => 5, [10], [false]⟩ : Steer Nat Nat) (fun h r => h + r) 9
      = CallOutcome.panicIndex 5 :=
  steer_call_index_fatal (⟨fun _ _ => 5, [10], [false]⟩ : Steer Nat Nat)
    (fun h r => h + r) 9 (by decide) (by decide)

/-- C8: `Steer::new` stores the handlers in the order supplied and builds a
readiness vector with one entry per handler, all initialized to `false`. -/
theorem steer_new_init {H ρ : Type} (cls : List H) (router : ρ → List H → Nat) :
    (Steer.new cls router).cls = cls ∧
    (Steer.new cls router).ready.length = cls.length ∧
    (Steer.new cls router).ready = List.replicate cls.length false := by
  refine ⟨rfl, ?_, ?_⟩
  · simp [Steer.new]
  · simp [Steer.new]

/-- C9: on every poll, the wrapped response future is polled first: if it is
ready its result wins (errors translated via `Into::into`) even when the
timer has also fired; only when the response is pending and the timer has
fired does the wrapper yield the distinguished `Elapsed` error; when both
are pending the wrapper stays pending. -/
theorem timeout_poll_order {ε τ : Type} (v : Except ε τ) (sp : FPoll Unit) :
    responseFuturePoll (FPoll.ready v) sp
      = FPoll.ready (v.mapError TimeoutError.inner) ∧
    responseFuturePoll (FPoll.pending : FPoll (Except ε τ)) (FPoll.ready ())
      = FPoll.ready (Except.error TimeoutError.elapsed) ∧
    responseFuturePoll (FPoll.pending : FPoll (Except ε τ)) FPoll.pending
      = FPoll.pending := by
  refine ⟨?_, rfl, rfl⟩
  cases v <;> rfl

/-- C10: `Steer::new` accepts an empty handler collection (readiness vector
empty), `poll_ready` on the empty combinator returns `Ready(Ok)` at once,
and every `call` panics with an out-of-range index. -/
theorem steer_empty_ok {H ρ φ ε : Type} (router : ρ → List H → Nat)
    (callFn : H → ρ → φ) (req : ρ) :
    (Steer.new ([] : List H) router).ready = [] ∧
    (steerPollReady ([] : List (HPoll ε))
      (Steer.new ([] : List H) router).ready).result = PollReady.ok ∧
    (Steer.new ([] : List H) router).call callFn req
      = CallOutcome.panicIndex (router req []) := by
  refine ⟨rfl, rfl, ?_⟩
  simp only [Steer.call, Steer.new]
  rw [dif_neg (by simp)]

end Tower
